import Mathlib

/-!
# Verification of the MCQ grading core (`backend/yolo_based_mark_detection.py`)

Shallow embedding of the `McqMarker` grid-resolution and mark-disambiguation
algorithm.  Python floats are modelled as exact rationals (`ℚ`); Python's
`int(...)` truncation toward zero is `truncInt`; the Euclidean-distance
comparison `sqrt(dx**2+dy**2) < min_dist` is modelled by comparing squared
distances, which is equivalent because `sqrt` is strictly monotone on the
nonnegative reals.  Fallible stages are early returns: a stage whose
precondition fails returns the state unchanged (the Python code prints a
message and returns `None`).
-/

namespace Mcq

/-- Python `int(q)` on a rational: truncation toward zero
(`Int.tdiv` truncates toward zero, matching CPython `int(float)`). -/
def truncInt (q : ℚ) : ℤ := q.num.tdiv q.den

/-- A detected mark: the centroid of a class-0 ("mark") detection box. -/
structure Mark where
  center_x : ℚ
  center_y : ℚ
  confidence : ℚ
deriving DecidableEq, Repr

/-- An axis-aligned ROI rectangle `(x_start, y_start, x_end, y_end)`. -/
structure Roi where
  x_start : ℚ
  y_start : ℚ
  x_end : ℚ
  y_end : ℚ
deriving DecidableEq, Repr

/-- `str(digit)` for `digit ∈ 0..9`. -/
def digitChar (d : ℕ) : Char := Char.ofNat (48 + d)

/-- One entry of `digit_centers` in `start_indx_processing`:
a digit-bubble anchor of the index grid. -/
structure DigitCenter where
  x : ℚ
  y : ℚ
  col : ℕ
  digit : Char
deriving DecidableEq, Repr

/-- The `digit_centers` list of `start_indx_processing` (lines 119-133):
7 equal-width columns, 10 equal-height digit rows, centers at the middle of
each cell, generated column-major (`for col_idx: for digit:`). -/
def indxDigitCenters (x_start y_start roi_width roi_height : ℚ) :
    List DigitCenter :=
  let column_width_segment := roi_width / 7
  let digit_row_height_segment := roi_height / 10
  (List.range 7).flatMap (fun (col_idx : ℕ) =>
    (List.range 10).map (fun (digit : ℕ) =>
      { x := x_start + (col_idx : ℚ) * column_width_segment + column_width_segment / 2
        y := y_start + (digit : ℚ) * digit_row_height_segment + digit_row_height_segment / 2
        col := col_idx
        digit := digitChar digit }))

/-- Squared Euclidean distance between a mark centroid and an anchor point. -/
def dist2 (mx my cx cy : ℚ) : ℚ := (mx - cx) ^ 2 + (my - cy) ^ 2

/-- The running-minimum loop shared by both resolvers
(`for center in ...: if dist < min_dist: ...`), over an arbitrary candidate
type with a distance key.  `best` is `None` before the first iteration and
`Some (min_dist, closest)` afterwards; replacement is on strict `<`, so the
first candidate attaining the minimum is kept. -/
def scanMin {α : Type} (key : α → ℚ) :
    Option (ℚ × α) → List α → Option (ℚ × α)
  | best, [] => best
  | best, c :: cs =>
    let d := key c
    match best with
    | none => scanMin key (some (d, c)) cs
    | some b => if d < b.1 then scanMin key (some (d, c)) cs
                else scanMin key (some b) cs

/-- `closest_digit_center` for one mark (lines 137-144). -/
def closestDigitCenter (m : Mark) (centers : List DigitCenter) :
    Option DigitCenter :=
  (scanMin (fun c => dist2 m.center_x m.center_y c.x c.y) none centers).map
    Prod.snd

/-- `marks_per_column[i].append(digit)`: Python list-of-lists update. -/
def appendAt (acc : List (List Char)) (i : ℕ) (d : Char) :
    List (List Char) :=
  acc.set i (acc.getD i [] ++ [d])

/-- The mark-to-column grouping loop of `start_indx_processing`
(lines 136-147): each detected mark is resolved to its closest digit
center and that center's digit is appended to its column's list. -/
def marksPerColumn (marks : List Mark) (centers : List DigitCenter) :
    List (List Char) :=
  marks.foldl (fun acc m =>
    match closestDigitCenter m centers with
    | some c => appendAt acc c.col c.digit
    | none => acc) (List.replicate 7 [])

/-- The per-column disambiguation of `start_indx_processing` (lines 150-160):
no marks → `'X'`; one distinct digit → that digit; otherwise `'M'`.
Python's `list(set(marks_in_col))` is modelled by `List.dedup`: the code
only uses the number of distinct elements and, when there is exactly one,
that element, both independent of set-iteration order. -/
def indxColOutcome (marks_in_col : List Char) : Char :=
  if marks_in_col = [] then 'X'
  else
    let unique_digits := marks_in_col.dedup
    if unique_digits.length = 1 then unique_digits.headI else 'M'

/-- The per-question disambiguation of `start_answer_processing`
(lines 305-315): `none` models `q_num not in marks_per_question`
(the dict key exists exactly when at least one mark resolved there). -/
def answerSlotOutcome : Option (List Char) → Char
  | none => 'X'
  | some detected_options =>
    let unique_options := detected_options.dedup
    if unique_options.length = 1 then unique_options.headI else 'M'

/-- One entry of a `bubble_centers[q_num]` list: an option-bubble anchor of
the answer grid. -/
structure BubbleCenter where
  x : ℚ
  y : ℚ
  option : Char
deriving DecidableEq, Repr

/-- `column_definitions_ratios` of `_calculate_bubble_centers`
(lines 201-207), in dict insertion order `firstCol .. fifthCol`. -/
def columnDefinitionsRatios : List (ℚ × ℚ) :=
  [(35 / 965, 175 / 965), (235 / 965, 375 / 965), (435 / 965, 570 / 965),
   (635 / 965, 770 / 965), (830 / 965, 965 / 965)]

/-- The five option anchors of one question row (lines 239-250):
`x_center_px = col_start_px + option_idx·option_width_px + option_width_px/2`,
shifted by the refined-ROI origin. -/
def rowCenters (options : List Char) (col_start_px : ℤ) (option_width_px : ℚ)
    (q_center_y_px : ℤ) (x_start y_start : ℚ) : List BubbleCenter :=
  (List.range options.length).map (fun (option_idx : ℕ) =>
    { x := (col_start_px : ℚ) + (option_idx : ℚ) * option_width_px +
        option_width_px / 2 + x_start
      y := (q_center_y_px : ℚ) + y_start
      option := options.getD option_idx 'A' })

/-- The inner `for q_in_group_idx in range(questions_per_group)` loop
(lines 235-253), processing `n` rows: each row is anchored at
`int((current_y_ratio + segment_height_ratio/2) * roi_height)`, then
`current_y_ratio += segment_height_ratio; q_num += 1`.  Returns the rows
together with the final `(q_num, current_y_ratio)`. -/
def rowsLoop (options : List Char) (col_start_px : ℤ) (option_width_px : ℚ)
    (x_start y_start roi_height seg : ℚ) :
    ℕ → ℕ → ℚ → List (ℕ × List BubbleCenter) × ℕ × ℚ
  | 0, q_num, y => ([], q_num, y)
  | n + 1, q_num, y =>
    let q_center_y_px := truncInt ((y + seg / 2) * roi_height)
    let rest := rowsLoop options col_start_px option_width_px x_start y_start
      roi_height seg n (q_num + 1) (y + seg)
    ((q_num, rowCenters options col_start_px option_width_px q_center_y_px
        x_start y_start) :: rest.1, rest.2)

/-- The `for group_idx in range(num_groups_per_column)` loop (lines 234-256),
with `n` groups left to process and `group_idx` the Python loop variable:
5 rows per group, then `current_y_ratio += gap_height_ratio` only when
`group_idx < num_gaps` (`num_gaps = 7`). -/
def groupsLoop (options : List Char) (col_start_px : ℤ) (option_width_px : ℚ)
    (x_start y_start roi_height seg gap : ℚ) :
    ℕ → ℕ → ℕ → ℚ → List (ℕ × List BubbleCenter) × ℕ × ℚ
  | _, 0, q_num, y => ([], q_num, y)
  | group_idx, n + 1, q_num, y =>
    let r := rowsLoop options col_start_px option_width_px x_start y_start
      roi_height seg 5 q_num y
    let y2 := if group_idx < 7 then r.2.2 + gap else r.2.2
    let rest := groupsLoop options col_start_px option_width_px x_start y_start
      roi_height seg gap (group_idx + 1) n r.2.1 y2
    (r.1 ++ rest.1, rest.2)

/-- One column band of `_calculate_bubble_centers` (lines 229-256):
`option_width_px = col_width_px / options_per_question`, then 8 groups of
5 rows starting from `current_y_ratio = 0`. -/
def processColumn (options : List Char) (col_start_px col_end_px : ℤ)
    (x_start y_start roi_height seg gap : ℚ) (q0 : ℕ) :
    List (ℕ × List BubbleCenter) × ℕ :=
  let option_width_px := ((col_end_px - col_start_px : ℤ) : ℚ) /
    (options.length : ℚ)
  let r := groupsLoop options col_start_px option_width_px x_start y_start
    roi_height seg gap 0 8 q0 0
  (r.1, r.2.1)

/-- Iteration over `column_boundaries.items()` (insertion order,
left to right); `q_num` is threaded across columns and never reset. -/
def columnsLoop (options : List Char) (x_start y_start roi_height seg gap : ℚ) :
    List (ℤ × ℤ) → ℕ → List (ℕ × List BubbleCenter)
  | [], _ => []
  | b :: bs, q_num =>
    let r := processColumn options b.1 b.2 x_start y_start roi_height seg gap
      q_num
    r.1 ++ columnsLoop options x_start y_start roi_height seg gap bs r.2

/-- `McqMarker._calculate_bubble_centers` (lines 197-258).  The Python dict
`bubble_centers` keyed by `q_num` is modelled as an association list in key
insertion order, which is ascending `q_num` (each question's five options are
appended consecutively and `q_num` only ever increases). -/
def calcBubbleCenters (options : List Char)
    (x_start y_start roi_width roi_height : ℚ) :
    List (ℕ × List BubbleCenter) :=
  let total_question_height_ratio : ℚ := 1 - 7 * (22 / 1000)
  let segment_height_ratio := total_question_height_ratio / 40
  let gap_height_ratio : ℚ := 22 / 1000
  let column_boundaries := columnDefinitionsRatios.map (fun p =>
    (truncInt (roi_width * p.1), truncInt (roi_width * p.2)))
  columnsLoop options x_start y_start roi_height segment_height_ratio
    gap_height_ratio column_boundaries 1

/-- The `(q_num, center)` candidates visited by the nested
`for q_num, centers in bubble_centers_by_q.items(): for center in centers:`
loops, flattened in encounter order. -/
def bubblePairs (bc : List (ℕ × List BubbleCenter)) :
    List (ℕ × BubbleCenter) :=
  bc.flatMap (fun p => p.2.map (fun c => (p.1, c)))

/-- The resolver of `start_answer_processing` (lines 287-298): the nested
running-minimum scan over all `(q, center)` pairs, tracking both the
closest center and its question number. -/
def closestBubble (m : Mark) (bc : List (ℕ × List BubbleCenter)) :
    Option (ℕ × BubbleCenter) :=
  (scanMin (fun p => dist2 m.center_x m.center_y p.2.x p.2.y) none
    (bubblePairs bc)).map Prod.snd

/-- `marks_per_question[q].append(option)` with dict-key creation on first
insertion (lines 300-303), as an association-list update. -/
def insertMark : List (ℕ × List Char) → ℕ → Char → List (ℕ × List Char)
  | [], q, opt => [(q, [opt])]
  | (k, v) :: rest, q, opt =>
    if k = q then (k, v ++ [opt]) :: rest
    else (k, v) :: insertMark rest q opt

/-- The mark-to-question grouping loop of `start_answer_processing`
(lines 286-303). -/
def marksPerQuestion (marks : List Mark) (bc : List (ℕ × List BubbleCenter)) :
    List (ℕ × List Char) :=
  marks.foldl (fun mpq m =>
    match closestBubble m bc with
    | some (q, c) => insertMark mpq q c.option
    | none => mpq) []

/-- `q_num in marks_per_question` / `marks_per_question[q_num]`:
dict lookup on the association-list model (keys are unique). -/
def lookupList : List (ℕ × List Char) → ℕ → Option (List Char)
  | [], _ => none
  | (k, v) :: rest, q => if k = q then some v else lookupList rest q

/-- A `mark_scheme` entry `{'answer_to': q, 'answer': a}`. -/
structure SchemeEntry where
  answer_to : ℕ
  answer : Char
deriving DecidableEq, Repr

/-- A `student_answer` entry
`{'answer_to': q, 'answer': a, 'correct_answer': c}`. -/
structure StudentAns where
  answer_to : ℕ
  answer : Char
  correct_answer : Char
deriving DecidableEq, Repr

/-- The mutable fields of a `McqMarker` instance that the core algorithm
reads and writes (`__init__`, lines 34-64; the image path, model path and
test id play no role in the algorithm). -/
structure McqState where
  indx_roi_coords : Option Roi
  answers_roi_coords : Option Roi
  detected_indx_marks : List Mark
  detected_answers_marks : List Mark
  questions : ℕ
  is_scheme : Bool
  index_number : String
  student_answer : List StudentAns
  mark_scheme : List SchemeEntry
  score : ℕ
  options : List Char
deriving DecidableEq, Repr

/-- The index-block ROI refinement (lines 100-108): fixed per-side padding
ratios 0.05 (left and right), 0.095 (top), 0.08 (bottom). -/
def refineIndxRoi (roi : Roi) : Roi :=
  let padding_x := (roi.x_end - roi.x_start) * (5 / 100)
  let padding_y_t := (roi.y_end - roi.y_start) * (95 / 1000)
  let padding_y_b := (roi.y_end - roi.y_start) * (8 / 100)
  { x_start := roi.x_start + padding_x
    y_start := roi.y_start + padding_y_t
    x_end := roi.x_end - padding_x
    y_end := roi.y_end - padding_y_b }

/-- The answer-block ROI refinement (lines 267-275): fixed per-side padding
ratios 0.05 (left), 0.04 (right, top and bottom). -/
def refineAnswersRoi (roi : Roi) : Roi :=
  let padding_x_l := (roi.x_end - roi.x_start) * (5 / 100)
  let padding_x_r := (roi.x_end - roi.x_start) * (4 / 100)
  let padding_y_t := (roi.y_end - roi.y_start) * (4 / 100)
  let padding_y_b := (roi.y_end - roi.y_start) * (4 / 100)
  { x_start := roi.x_start + padding_x_l
    y_start := roi.y_start + padding_y_t
    x_end := roi.x_end - padding_x_r
    y_end := roi.y_end - padding_y_b }

/-- `McqMarker.start_indx_processing` (lines 95-164; the debug plotting of
lines 166-195 only draws and saves an image and is omitted).  A missing ROI
or a degenerate refined rectangle prints an error and returns, leaving the
state unchanged. -/
def startIndxProcessing (s : McqState) : McqState :=
  match s.indx_roi_coords with
  | none => s
  | some roi =>
    let r := refineIndxRoi roi
    let x_start := r.x_start
    let y_start := r.y_start
    let roi_height := r.y_end - r.y_start
    let roi_width := r.x_end - r.x_start
    if roi_height ≤ 0 ∨ roi_width ≤ 0 then s
    else
      let digit_centers := indxDigitCenters x_start y_start roi_width roi_height
      let marks_per_column := marksPerColumn s.detected_indx_marks digit_centers
      let index_digits := (List.range 7).map (fun i =>
        indxColOutcome (marks_per_column.getD i []))
      { s with index_number := String.mk index_digits }

/-- `self.mark_scheme[q_num - 1]['answer']` guarded by
`len(self.mark_scheme) >= q_num`, else `'?'` (lines 324-327). -/
def correctAnswerFor (scheme : List SchemeEntry) (q_num : ℕ) : Char :=
  if scheme.length ≥ q_num then (scheme.getD (q_num - 1) ⟨0, 'A'⟩).answer
  else Char.ofNat 63  -- the character literal for a question mark

/-- One iteration of the `for q_num in range(1, self.questions + 1)`
recording loop of `start_answer_processing` (lines 305-333), at loop
index `i` (so `q_num = i + 1`). -/
def recordStep (mpq : List (ℕ × List Char)) (st : McqState) (i : ℕ) :
    McqState :=
  let q_num := i + 1
  let detected_answer := answerSlotOutcome (lookupList mpq q_num)
  if st.is_scheme then
    { st with mark_scheme := st.mark_scheme ++
        [{ answer_to := q_num, answer := detected_answer }] }
  else
    { st with student_answer := st.student_answer ++
        [{ answer_to := q_num, answer := detected_answer,
           correct_answer := correctAnswerFor st.mark_scheme q_num }] }

/-- The recording loop of `start_answer_processing` (lines 305-333). -/
def recordAnswers (mpq : List (ℕ × List Char)) (s : McqState) : McqState :=
  (List.range s.questions).foldl (recordStep mpq) s

/-- `McqMarker.start_answer_processing` (lines 261-333; debug plotting of
lines 335-384 omitted).  Note: unlike the index stage, there is no check
that the refined rectangle has positive width or height. -/
def startAnswerProcessing (s : McqState) : McqState :=
  match s.answers_roi_coords with
  | none => s
  | some roi =>
    let r := refineAnswersRoi roi
    let roi_height := r.y_end - r.y_start
    let roi_width := r.x_end - r.x_start
    let bubble_centers_by_q :=
      calcBubbleCenters s.options r.x_start r.y_start roi_width roi_height
    let marks_per_question :=
      marksPerQuestion s.detected_answers_marks bubble_centers_by_q
    recordAnswers marks_per_question s

/-- `McqMarker.calculate_score` (lines 386-400): in scheme mode it returns
immediately; otherwise `score` is recomputed from zero by the counting
loop. -/
def calculateScore (s : McqState) : McqState :=
  if s.is_scheme then s
  else
    { s with score := s.student_answer.foldl (fun sc student_ans =>
        if student_ans.answer = student_ans.correct_answer ∧
            ¬ (student_ans.answer = 'X' ∨ student_ans.answer = 'M')
        then sc + 1 else sc) 0 }

/-- The script-mode return value of `marking_outcome` (lines 453-460). -/
structure ScriptOutcome where
  answers : List StudentAns
  index_number : String
  score : ℕ
  out_of : ℕ
deriving DecidableEq, Repr

/-- The return value of `McqMarker.marking_outcome` (lines 448-460). -/
inductive MarkingOutcome where
  | schemeOut (scheme : List SchemeEntry)
  | scriptOut (r : ScriptOutcome)
deriving DecidableEq, Repr

/-- `McqMarker.marking_outcome` (lines 448-460): scheme mode returns the
accumulated scheme; script mode first runs `calculate_score` and then
returns answers, index number, score and question count. -/
def markingOutcome (s : McqState) : MarkingOutcome :=
  if s.is_scheme then .schemeOut s.mark_scheme
  else
    let s2 := calculateScore s
    .scriptOut { answers := s2.student_answer,
                 index_number := s2.index_number,
                 score := s2.score, out_of := s2.questions }

/-!
## Default-argument aliasing model (for the `__init__` signature)

`def __init__(self, image_path, test_id, total_questions, is_scheme,
scheme=[])` evaluates the default expression `[]` once, when the function
object is created; every construction that omits `scheme` binds
`self.mark_scheme` to that same list object, and
`self.mark_scheme.append(...)` mutates it in place.  We model list objects
by a store of lists indexed by references. -/

/-- A store of Python list objects. -/
structure PyHeap where
  lists : List (List SchemeEntry)
deriving DecidableEq, Repr

/-- The single default-argument object created when `__init__` is defined. -/
def defaultSchemeRef : ℕ := 0

/-- The heap at interpreter start: only the default `scheme=[]` object. -/
def initHeap : PyHeap := ⟨[[]]⟩

/-- Read a list object. -/
def heapGet (h : PyHeap) (r : ℕ) : List SchemeEntry := h.lists.getD r []

/-- `obj.append(e)`: in-place mutation of a list object. -/
def heapAppend (h : PyHeap) (r : ℕ) (e : SchemeEntry) : PyHeap :=
  ⟨h.lists.set r (h.lists.getD r [] ++ [e])⟩

/-- The fields of a constructed `McqMarker` relevant to scheme aliasing:
`self.mark_scheme = scheme` stores a reference to the argument object. -/
structure MarkerObj where
  mark_scheme_ref : ℕ
  questions : ℕ
  is_scheme : Bool
deriving DecidableEq, Repr

/-- `McqMarker(..., total_questions, is_scheme)` with the `scheme` argument
either passed (a reference) or omitted (the shared default object). -/
def newMarker (questions : ℕ) (is_scheme : Bool) (schemeArg : Option ℕ) :
    MarkerObj :=
  match schemeArg with
  | some r => { mark_scheme_ref := r, questions := questions,
                is_scheme := is_scheme }
  | none => { mark_scheme_ref := defaultSchemeRef, questions := questions,
              is_scheme := is_scheme }

/-- The scheme-mode branch of the recording loop (lines 318-322), acting on
the heap: `self.mark_scheme.append({'answer_to': q_num, 'answer': ...})`. -/
def schemeModeAppendLoop (mk : MarkerObj) (mpq : List (ℕ × List Char))
    (h : PyHeap) : PyHeap :=
  (List.range mk.questions).foldl (fun hh i =>
    heapAppend hh mk.mark_scheme_ref
      { answer_to := i + 1,
        answer := answerSlotOutcome (lookupList mpq (i + 1)) }) h

/-! ## Helper lemmas -/

theorem dedup_of_all_eq {l : List Char} {a : Char} (ha : a ∈ l)
    (h : ∀ b ∈ l, b = a) : l.dedup = [a] := by
  induction l with
  | nil => cases ha
  | cons c t ih =>
    have hc : c = a := h c (List.mem_cons_self c t)
    subst hc
    cases t with
    | nil => simp
    | cons d t' =>
      have hd : d = c := h d (by simp)
      have hmem : c ∈ d :: t' := by simp [hd]
      rw [List.dedup_cons_of_mem hmem]
      exact ih hmem (fun b hb => h b (List.mem_cons_of_mem _ hb))

theorem countIf_eq_filter_length (p : StudentAns → Prop) [DecidablePred p] :
    ∀ (l : List StudentAns) (n : ℕ),
      l.foldl (fun sc a => if p a then sc + 1 else sc) n =
        n + (l.filter (fun a => p a)).length := by
  intro l
  induction l with
  | nil => intro n; simp
  | cons a t ih =>
    intro n
    by_cases hp : p a
    · simp [List.foldl_cons, hp, ih, Nat.add_comm, Nat.add_assoc,
        Nat.add_left_comm]
    · simp [List.foldl_cons, hp, ih]

/-! ## Claim theorems -/

/-- C1: the disambiguated outcome of a slot is determined solely by the set
of distinct labels resolved to it — no labels yield `'X'`, exactly one
distinct label yields that label, and two or more distinct labels yield
`'M'` regardless of multiplicities; the answer-slot rule (with `none`
standing for an absent dict key, i.e. no resolved mark) agrees with the
index-column rule. -/
theorem slot_outcome_cases (labels : List Char) :
    (labels = [] → indxColOutcome labels = 'X') ∧
    (∀ a, a ∈ labels → (∀ b ∈ labels, b = a) → indxColOutcome labels = a) ∧
    ((∃ a ∈ labels, ∃ b ∈ labels, a ≠ b) → indxColOutcome labels = 'M') ∧
    answerSlotOutcome none = indxColOutcome [] ∧
    (labels ≠ [] → answerSlotOutcome (some labels) = indxColOutcome labels) := by
  refine ⟨fun h => by simp [indxColOutcome, h], ?_, ?_, by
    simp [answerSlotOutcome, indxColOutcome], fun h => by
    simp [answerSlotOutcome, indxColOutcome, h]⟩
  · intro a ha hall
    have hne : labels ≠ [] := by
      intro h; subst h; cases ha
    have hd := dedup_of_all_eq ha hall
    simp [indxColOutcome, hne, hd]
  · rintro ⟨a, ha, b, hb, hab⟩
    have hne : labels ≠ [] := by
      intro h; subst h; cases ha
    have hlen : labels.dedup.length ≠ 1 := by
      intro h1
      obtain ⟨x, hx⟩ := List.length_eq_one.mp h1
      have ha' : a ∈ labels.dedup := List.mem_dedup.mpr ha
      have hb' : b ∈ labels.dedup := List.mem_dedup.mpr hb
      rw [hx] at ha' hb'
      simp at ha' hb'
      exact hab (ha'.trans hb'.symm)
    simp [indxColOutcome, hne, hlen]

/-- C10: the slot outcome is invariant under any permutation of the labels
resolved to a slot, for both the index-column and the answer-slot
disambiguators. -/
theorem slot_outcome_perm_invariant (l1 l2 : List Char) (h : l1.Perm l2) :
    indxColOutcome l1 = indxColOutcome l2 ∧
    answerSlotOutcome (some l1) = answerSlotOutcome (some l2) := by
  have hd : l1.dedup.Perm l2.dedup := h.dedup
  have hlen : l1.dedup.length = l2.dedup.length := hd.length_eq
  have hcore : (if l1.dedup.length = 1 then l1.dedup.headI else 'M') =
      (if l2.dedup.length = 1 then l2.dedup.headI else 'M') := by
    by_cases h1 : l1.dedup.length = 1
    · obtain ⟨x, hx⟩ := List.length_eq_one.mp h1
      obtain ⟨y, hy⟩ := List.length_eq_one.mp (hlen ▸ h1)
      have hxy : x = y := by
        have := hd
        rw [hx, hy] at this
        exact List.singleton_perm_singleton.mp this
      rw [if_pos h1, if_pos (hlen ▸ h1), hx, hy, hxy]
    · rw [if_neg h1, if_neg (fun hc => h1 (hlen ▸ hc))]
  constructor
  · by_cases hn : l1 = []
    · have hn2 : l2 = [] := (hn ▸ h).symm.eq_nil
      rw [hn, hn2]
    · have hn2 : l2 ≠ [] := fun hc => hn (hc ▸ h.symm).symm.eq_nil
      simpa [indxColOutcome, hn, hn2] using hcore
  · simpa [answerSlotOutcome] using hcore

/-- C10 witness: applying the invariance theorem to the concrete
permutation `['1','2','1'] ~ ['2','1','1']`. -/
theorem slot_outcome_perm_invariant_witness :
    indxColOutcome ['1', '2', '1'] = indxColOutcome ['2', '1', '1'] ∧
    answerSlotOutcome (some ['1', '2', '1']) =
      answerSlotOutcome (some ['2', '1', '1']) :=
  slot_outcome_perm_invariant ['1', '2', '1'] ['2', '1', '1'] (by decide)

/-- C2: in script mode `calculate_score` sets `score` to the number of
recorded answers whose detected outcome equals the correct label and is
neither `'X'` nor `'M'`; in scheme mode it returns with the whole state
(in particular the `score` field) unchanged. -/
theorem calculate_score_spec (s : McqState) :
    (s.is_scheme = true → calculateScore s = s) ∧
    (s.is_scheme = false → (calculateScore s).score =
      (s.student_answer.filter (fun a =>
        a.answer = a.correct_answer ∧ a.answer ≠ 'X' ∧
          a.answer ≠ 'M')).length) := by
  constructor
  · intro h
    simp [calculateScore, h]
  · intro h
    simp only [calculateScore, h, Bool.false_eq_true, if_false]
    have := countIf_eq_filter_length
      (fun a : StudentAns => a.answer = a.correct_answer ∧
        ¬ (a.answer = 'X' ∨ a.answer = 'M')) s.student_answer 0
    simp only [Nat.zero_add] at this
    rw [this]
    congr 1
    apply List.filter_congr
    intro a _
    by_cases h1 : a.answer = a.correct_answer <;>
      by_cases h2 : a.answer = 'X' <;>
        by_cases h3 : a.answer = 'M' <;> simp [h1, h2, h3]

/-- C1 witness: the three cases and the index/answer agreement at concrete
label lists. -/
theorem slot_outcome_cases_witness :
    indxColOutcome [] = 'X' ∧ indxColOutcome ['7', '7'] = '7' ∧
    indxColOutcome ['1', '2'] = 'M' ∧
    answerSlotOutcome (some ['7']) = indxColOutcome ['7'] :=
  ⟨(slot_outcome_cases []).1 rfl,
   (slot_outcome_cases ['7', '7']).2.1 '7' (by decide) (by decide),
   (slot_outcome_cases ['1', '2']).2.2.1 ⟨'1', by decide, '2', by decide,
     by decide⟩,
   (slot_outcome_cases ['7']).2.2.2.2 (by decide)⟩

/-- A concrete script-mode state with five recorded answers
(match, match-but-empty, mismatch, match-but-conflict, match). -/
def sampleScriptState : McqState :=
  { indx_roi_coords := none, answers_roi_coords := none,
    detected_indx_marks := [], detected_answers_marks := [], questions := 5,
    is_scheme := false, index_number := "", student_answer :=
      [{ answer_to := 1, answer := 'A', correct_answer := 'A' },
       { answer_to := 2, answer := 'X', correct_answer := 'X' },
       { answer_to := 3, answer := 'B', correct_answer := 'C' },
       { answer_to := 4, answer := 'M', correct_answer := 'M' },
       { answer_to := 5, answer := 'B', correct_answer := 'B' }],
    mark_scheme := [], score := 0, options := ['A', 'B', 'C', 'D', 'E'] }

/-- The same state in scheme mode. -/
def sampleSchemeState : McqState := { sampleScriptState with is_scheme := true }

/-- C2 witness: both modes at concrete states; the scoring at
`sampleScriptState` counts exactly the two exact matches that are neither
`'X'` nor `'M'`. -/
theorem calculate_score_spec_witness :
    calculateScore sampleSchemeState = sampleSchemeState ∧
    (calculateScore sampleScriptState).score =
      (sampleScriptState.student_answer.filter (fun a =>
        a.answer = a.correct_answer ∧ a.answer ≠ 'X' ∧
          a.answer ≠ 'M')).length ∧
    (calculateScore sampleScriptState).score = 2 :=
  ⟨(calculate_score_spec sampleSchemeState).1 rfl,
   (calculate_score_spec sampleScriptState).2 rfl, by decide⟩

/-- Closed form of the recording loop in script mode: one `student_answer`
entry is appended per question, the mark scheme and mode are untouched. -/
theorem foldl_recordStep_script (mpq : List (ℕ × List Char)) :
    ∀ (n : ℕ) (st : McqState), st.is_scheme = false →
      (List.range n).foldl (recordStep mpq) st =
        { st with student_answer := st.student_answer ++
            (List.range n).map (fun i =>
              { answer_to := i + 1,
                answer := answerSlotOutcome (lookupList mpq (i + 1)),
                correct_answer := correctAnswerFor st.mark_scheme
                  (i + 1) }) } := by
  intro n
  induction n with
  | zero => intro st h; simp
  | succ n ih =>
    intro st h
    rw [List.range_succ, List.foldl_append, ih st h]
    simp [recordStep, h, List.range_succ]

/-- C6: in script mode the loop records one entry per question `q` from 1 to
`total_questions`; its correct answer is the scheme entry at position `q`
(by position) when the scheme has at least `q` entries, and `'?'`
(`Char.ofNat 63`) otherwise; an incomplete scheme never aborts the loop
(exactly `questions` entries are always produced). -/
theorem incomplete_scheme_lookup (mpq : List (ℕ × List Char)) (s : McqState)
    (hmode : s.is_scheme = false) (h0 : s.student_answer = []) :
    (recordAnswers mpq s).student_answer =
      (List.range s.questions).map (fun i =>
        { answer_to := i + 1,
          answer := answerSlotOutcome (lookupList mpq (i + 1)),
          correct_answer :=
            if h : i < s.mark_scheme.length
            then (s.mark_scheme.get ⟨i, h⟩).answer
            else Char.ofNat 63 }) := by
  rw [recordAnswers, foldl_recordStep_script mpq s.questions s hmode]
  simp only [h0, List.nil_append]
  apply List.map_congr_left
  intro i _
  simp only [StudentAns.mk.injEq, true_and]
  unfold correctAnswerFor
  by_cases h : i < s.mark_scheme.length
  · rw [dif_pos h, if_pos (by omega)]
    simp only [Nat.add_sub_cancel, List.get_eq_getElem]
    rw [List.getD_eq_getElem _ _ h]
  · rw [dif_neg h, if_neg (by omega)]

/-- A script-mode state with two questions but a one-entry scheme whose
stored question number (5) differs from its position (1). -/
def shortSchemeState : McqState :=
  { indx_roi_coords := none, answers_roi_coords := none,
    detected_indx_marks := [], detected_answers_marks := [], questions := 2,
    is_scheme := false, index_number := "", student_answer := [],
    mark_scheme := [{ answer_to := 5, answer := 'B' }], score := 0,
    options := ['A', 'B', 'C', 'D', 'E'] }

/-- C6 witness: at `shortSchemeState`, question 1 receives the positional
answer `'B'` (not keyed by the stored number 5) and question 2 receives
`'?'`; no abort. -/
theorem incomplete_scheme_lookup_witness :
    (recordAnswers [] shortSchemeState).student_answer =
      (List.range shortSchemeState.questions).map (fun i =>
        { answer_to := i + 1,
          answer := answerSlotOutcome (lookupList [] (i + 1)),
          correct_answer :=
            if h : i < shortSchemeState.mark_scheme.length
            then (shortSchemeState.mark_scheme.get ⟨i, h⟩).answer
            else Char.ofNat 63 }) :=
  incomplete_scheme_lookup [] shortSchemeState rfl rfl

/-- A script-mode state whose answers ROI is a zero-width rectangle
(so the refined rectangle has width `≤ 0`). -/
def degenAnswersState : McqState :=
  { indx_roi_coords := none,
    answers_roi_coords := some ⟨0, 0, 0, 100⟩,
    detected_indx_marks := [], detected_answers_marks := [], questions := 1,
    is_scheme := false, index_number := "", student_answer := [],
    mark_scheme := [], score := 0, options := ['A', 'B', 'C', 'D', 'E'] }

/-- C7 counterexample: the claim says both blocks fail on a degenerate
refined rectangle without producing outcomes, but for the answer block with
a zero-width ROI (refined width `≤ 0`) the stage still records a full
outcome row. -/
theorem degenerate_answers_roi_counterexample :
    ((refineAnswersRoi ⟨0, 0, 0, 100⟩).x_end -
      (refineAnswersRoi ⟨0, 0, 0, 100⟩).x_start ≤ 0) ∧
    (startAnswerProcessing degenAnswersState).student_answer =
      [{ answer_to := 1, answer := 'X', correct_answer := Char.ofNat 63 }] :=
  ⟨by norm_num [refineAnswersRoi], by rfl⟩

/-- C7 (amended): only the index stage checks the refined rectangle — on
non-positive width or height it stops, leaving the state unchanged; the
answer stage performs no such check and proceeds to generate anchors and
record one outcome per question even when its refined rectangle is
degenerate. -/
theorem degenerate_roi_check (s : McqState) (roi : Roi) :
    (s.indx_roi_coords = some roi →
      ((refineIndxRoi roi).y_end - (refineIndxRoi roi).y_start ≤ 0 ∨
       (refineIndxRoi roi).x_end - (refineIndxRoi roi).x_start ≤ 0) →
      startIndxProcessing s = s) ∧
    (s.answers_roi_coords = some roi → s.is_scheme = false →
      ((refineAnswersRoi roi).y_end - (refineAnswersRoi roi).y_start ≤ 0 ∨
       (refineAnswersRoi roi).x_end - (refineAnswersRoi roi).x_start ≤ 0) →
      (startAnswerProcessing s).student_answer.length =
        s.student_answer.length + s.questions) := by
  constructor
  · intro hroi hdeg
    simp only [startIndxProcessing, hroi]
    rw [if_pos hdeg]
  · intro hroi hmode _hdeg
    simp only [startAnswerProcessing, hroi]
    rw [recordAnswers, foldl_recordStep_script _ _ _ hmode]
    simp

/-- A script-mode state whose index ROI is degenerate in height. -/
def degenIndxState : McqState :=
  { indx_roi_coords := some ⟨0, 0, 100, 0⟩,
    answers_roi_coords := none, detected_indx_marks := [],
    detected_answers_marks := [], questions := 1, is_scheme := false,
    index_number := "", student_answer := [], mark_scheme := [], score := 0,
    options := ['A', 'B', 'C', 'D', 'E'] }

/-- C7 witness: the amended theorem applied to the two concrete degenerate
states. -/
theorem degenerate_roi_check_witness :
    startIndxProcessing degenIndxState = degenIndxState ∧
    (startAnswerProcessing degenAnswersState).student_answer.length =
      degenAnswersState.student_answer.length + degenAnswersState.questions :=
  ⟨(degenerate_roi_check degenIndxState
      { x_start := 0, y_start := 0, x_end := 100, y_end := 0 }).1 rfl
      (Or.inl (by norm_num [refineIndxRoi])),
   (degenerate_roi_check degenAnswersState
      { x_start := 0, y_start := 0, x_end := 0, y_end := 100 }).2 rfl rfl
      (Or.inr (by norm_num [refineAnswersRoi]))⟩

/-- A script-mode state in which the detector produced neither ROI box. -/
def missingRoiState : McqState :=
  { indx_roi_coords := none, answers_roi_coords := none,
    detected_indx_marks := [], detected_answers_marks := [], questions := 3,
    is_scheme := false, index_number := "", student_answer := [],
    mark_scheme := [], score := 0, options := ['A', 'B', 'C', 'D', 'E'] }

/-- C8 counterexample: with both ROIs missing, each stage returns with the
state unchanged — indistinguishable from a successful no-op to the caller —
and the pipeline still returns a script-mode result with an empty index
number and an empty answers list, i.e. exactly the partially-populated
result the claim rules out. -/
theorem missing_roi_counterexample :
    startIndxProcessing missingRoiState = missingRoiState ∧
    startAnswerProcessing missingRoiState = missingRoiState ∧
    markingOutcome (startAnswerProcessing
        (startIndxProcessing missingRoiState)) =
      .scriptOut { answers := [], index_number := "", score := 0,
                   out_of := 3 } :=
  ⟨rfl, rfl, rfl⟩

/-- C8 (amended): when the ROI box a stage requires was not detected, that
stage prints an error message and returns leaving the state unchanged, so
the failure is not distinguishable to the caller through the stage's
return value; `marking_outcome` still returns a result — in script mode one
with an empty index number, an empty answers list and score 0. -/
theorem missing_roi_silent_return (s : McqState) :
    (s.indx_roi_coords = none → startIndxProcessing s = s) ∧
    (s.answers_roi_coords = none → startAnswerProcessing s = s) ∧
    (s.is_scheme = false → s.indx_roi_coords = none →
      s.answers_roi_coords = none → s.student_answer = [] →
      s.index_number = "" →
      markingOutcome (startAnswerProcessing (startIndxProcessing s)) =
        .scriptOut { answers := [], index_number := "", score := 0,
                     out_of := s.questions }) := by
  refine ⟨fun h => by simp [startIndxProcessing, h],
    fun h => by simp [startAnswerProcessing, h], ?_⟩
  intro hmode hidx hans h0 hn
  simp only [startIndxProcessing, hidx, startAnswerProcessing, hans]
  simp [markingOutcome, calculateScore, hmode, h0, hn]

/-- A second no-ROI script-mode state, with two questions. -/
def missingRoiState2 : McqState := { missingRoiState with questions := 2 }

/-- C8 witness: the amended theorem applied to `missingRoiState2`. -/
theorem missing_roi_silent_return_witness :
    startIndxProcessing missingRoiState2 = missingRoiState2 ∧
    startAnswerProcessing missingRoiState2 = missingRoiState2 ∧
    markingOutcome (startAnswerProcessing
        (startIndxProcessing missingRoiState2)) =
      .scriptOut { answers := [], index_number := "", score := 0,
                   out_of := missingRoiState2.questions } :=
  ⟨(missing_roi_silent_return missingRoiState2).1 rfl,
   (missing_roi_silent_return missingRoiState2).2.1 rfl,
   (missing_roi_silent_return missingRoiState2).2.2 rfl rfl rfl rfl rfl⟩

/-- C9 (code bug, mutable default argument): the default `scheme=[]` object
is created once; every scheme-mode construction that omits the argument
aliases it.  At interpreter start it is empty and two constructions share
it; after the first marker's scheme-mode recording loop runs over its one
question (with no detected marks, so outcome `'X'`), a freshly constructed
second marker's `mark_scheme` already contains that entry instead of
starting empty. -/
theorem mutable_default_scheme_shared :
    heapGet initHeap (newMarker 1 true none).mark_scheme_ref = [] ∧
    (newMarker 3 true none).mark_scheme_ref =
      (newMarker 1 true none).mark_scheme_ref ∧
    heapGet (schemeModeAppendLoop (newMarker 1 true none) [] initHeap)
      (newMarker 3 true none).mark_scheme_ref =
      [{ answer_to := 1, answer := 'X' }] := by
  decide

/-- Closed form of the running-minimum loop started from accumulator `b`:
the result either is `b` itself (no candidate strictly beat it) or is the
candidate at the first index attaining the minimum, with key strictly
below `b`'s. -/
theorem scanMin_some_spec {α : Type} (key : α → ℚ) :
    ∀ (l : List α) (b : ℚ × α),
      ∃ r, scanMin key (some b) l = some r ∧
        ((r = b ∧ ∀ j (hj : j < l.length), b.1 ≤ key (l.get ⟨j, hj⟩)) ∨
         (∃ i, ∃ hi : i < l.length,
           r = (key (l.get ⟨i, hi⟩), l.get ⟨i, hi⟩) ∧ r.1 < b.1 ∧
           (∀ j (hj : j < l.length), r.1 ≤ key (l.get ⟨j, hj⟩)) ∧
           (∀ j (hj : j < i),
             r.1 < key (l.get ⟨j, Nat.lt_trans hj hi⟩)))) := by
  intro l
  induction l with
  | nil =>
    intro b
    exact ⟨b, rfl, Or.inl ⟨rfl, fun j hj => absurd hj (by simp)⟩⟩
  | cons c cs ih =>
    intro b
    by_cases hlt : key c < b.1
    · obtain ⟨r, hr, hcase⟩ := ih (key c, c)
      refine ⟨r, by simp only [scanMin]; rw [if_pos hlt]; exact hr, Or.inr ?_⟩
      rcases hcase with ⟨hrb, hall⟩ | ⟨i, hi, hre, hlt', hmin, hstrict⟩
      · refine ⟨0, by simp, by simpa using hrb, by rw [hrb]; exact hlt,
          ?_, ?_⟩
        · intro j hj
          match j, hj with
          | 0, _ => simp [hrb]
          | j + 1, hj =>
            have := hall j (Nat.lt_of_succ_lt_succ hj)
            simpa [hrb] using this
        · intro j hj; omega
      · refine ⟨i + 1, Nat.succ_lt_succ hi, by simpa using hre,
          lt_trans hlt' hlt, ?_, ?_⟩
        · intro j hj
          match j, hj with
          | 0, _ => simpa using le_of_lt hlt'
          | j + 1, hj => simpa using hmin j (Nat.lt_of_succ_lt_succ hj)
        · intro j hj
          match j, hj with
          | 0, _ => simpa using hlt'
          | j + 1, hj => simpa using hstrict j (Nat.lt_of_succ_lt_succ hj)
    · obtain ⟨r, hr, hcase⟩ := ih b
      refine ⟨r, by simp only [scanMin]; rw [if_neg hlt]; exact hr, ?_⟩
      have hbc : b.1 ≤ key c := le_of_not_lt hlt
      rcases hcase with ⟨hrb, hall⟩ | ⟨i, hi, hre, hlt', hmin, hstrict⟩
      · refine Or.inl ⟨hrb, ?_⟩
        intro j hj
        match j, hj with
        | 0, _ => simpa using hbc
        | j + 1, hj => simpa using hall j (Nat.lt_of_succ_lt_succ hj)
      · refine Or.inr ⟨i + 1, Nat.succ_lt_succ hi, by simpa using hre,
          hlt', ?_, ?_⟩
        · intro j hj
          match j, hj with
          | 0, _ => simpa using le_of_lt (lt_of_lt_of_le hlt' hbc)
          | j + 1, hj => simpa using hmin j (Nat.lt_of_succ_lt_succ hj)
        · intro j hj
          match j, hj with
          | 0, _ => simpa using lt_of_lt_of_le hlt' hbc
          | j + 1, hj => simpa using hstrict j (Nat.lt_of_succ_lt_succ hj)

/-- The loop started from `None` on a nonempty list returns the candidate
at the first index attaining the minimum key. -/
theorem scanMin_none_spec {α : Type} (key : α → ℚ) (l : List α)
    (hne : l ≠ []) :
    ∃ i, ∃ hi : i < l.length,
      scanMin key none l = some (key (l.get ⟨i, hi⟩), l.get ⟨i, hi⟩) ∧
      (∀ j (hj : j < l.length),
        key (l.get ⟨i, hi⟩) ≤ key (l.get ⟨j, hj⟩)) ∧
      (∀ j (hj : j < i),
        key (l.get ⟨i, hi⟩) < key (l.get ⟨j, Nat.lt_trans hj hi⟩)) := by
  match l, hne with
  | c :: cs, _ =>
    have h1 : scanMin key none (c :: cs) =
        scanMin key (some (key c, c)) cs := by
      simp [scanMin]
    obtain ⟨r, hr, hcase⟩ := scanMin_some_spec key cs (key c, c)
    rcases hcase with ⟨hrb, hall⟩ | ⟨i, hi, hre, hlt', hmin, hstrict⟩
    · refine ⟨0, by simp, ?_, ?_, ?_⟩
      · rw [h1, hr, hrb]; simp
      · intro j hj
        match j, hj with
        | 0, _ => simp
        | j + 1, hj => simpa using hall j (Nat.lt_of_succ_lt_succ hj)
      · intro j hj; omega
    · have hr1 : r.1 = key (cs.get ⟨i, hi⟩) := by rw [hre]
      refine ⟨i + 1, Nat.succ_lt_succ hi, ?_, ?_, ?_⟩
      · rw [h1, hr, hre]; simp
      · intro j hj
        match j, hj with
        | 0, _ =>
          have h' := le_of_lt hlt'; rw [hr1] at h'; simpa using h'
        | j + 1, hj =>
          have h' := hmin j (Nat.lt_of_succ_lt_succ hj)
          rw [hr1] at h'; simpa using h'
      · intro j hj
        match j, hj with
        | 0, _ =>
          have h' := hlt'; rw [hr1] at h'; simpa using h'
        | j + 1, hj =>
          have h' := hstrict j (Nat.lt_of_succ_lt_succ hj)
          rw [hr1] at h'; simpa using h'

theorem appendAt_length (acc : List (List Char)) (j : ℕ) (d : Char) :
    (appendAt acc j d).length = acc.length := by
  simp [appendAt]

theorem getD_appendAt_self (acc : List (List Char)) (j : ℕ) (d : Char)
    (h : j < acc.length) :
    (appendAt acc j d).getD j [] = acc.getD j [] ++ [d] := by
  simp [appendAt, List.getD_eq_getElem?_getD, List.getElem?_set_self',
    List.getElem?_eq_getElem h]

theorem getD_appendAt_ne (acc : List (List Char)) (i j : ℕ) (d : Char)
    (h : j ≠ i) :
    (appendAt acc j d).getD i [] = acc.getD i [] := by
  simp [appendAt, List.getD_eq_getElem?_getD, List.getElem?_set_ne h]

/-- Loop invariant for the index grouping fold: column `i` of the result is
column `i` of the accumulator followed by, in order, the digits of the
marks whose closest center lies in column `i`. -/
theorem marksPerColumn_fold_getD (centers : List DigitCenter) :
    ∀ (marks : List Mark) (acc : List (List Char)) (i : ℕ),
      i < acc.length →
      (marks.foldl (fun acc m =>
          match closestDigitCenter m centers with
          | some c => appendAt acc c.col c.digit
          | none => acc) acc).getD i [] =
        acc.getD i [] ++ marks.filterMap (fun m =>
          match closestDigitCenter m centers with
          | some c => if c.col = i then some c.digit else none
          | none => none) := by
  intro marks
  induction marks with
  | nil => intro acc i hi; simp
  | cons m ms ih =>
    intro acc i hi
    simp only [List.foldl_cons, List.filterMap_cons]
    cases hc : closestDigitCenter m centers with
    | none => simp only [hc]; exact ih acc i hi
    | some c =>
      simp only [hc]
      by_cases hcol : c.col = i
      · subst hcol
        rw [if_pos rfl, ih (appendAt acc c.col c.digit) c.col
          (by rw [appendAt_length]; exact hi),
          getD_appendAt_self acc c.col c.digit hi, List.append_assoc]
        rfl
      · rw [if_neg hcol, ih (appendAt acc c.col c.digit) i
          (by rw [appendAt_length]; exact hi),
          getD_appendAt_ne acc i c.col c.digit hcol]

theorem lookup_insertMark (q' : ℕ) (opt : Char) :
    ∀ (mpq : List (ℕ × List Char)) (q : ℕ),
      lookupList (insertMark mpq q' opt) q =
        if q' = q then some ((lookupList mpq q).getD [] ++ [opt])
        else lookupList mpq q := by
  intro mpq
  induction mpq with
  | nil =>
    intro q
    by_cases h : q' = q <;> simp [insertMark, lookupList, h]
  | cons kv rest ih =>
    intro q
    obtain ⟨k, v⟩ := kv
    by_cases hk : k = q'
    · subst hk
      by_cases hq : k = q <;> simp [insertMark, lookupList, hq]
    · by_cases hq : k = q
      · subst hq
        have hq' : q' ≠ k := fun h => hk h.symm
        simp [insertMark, lookupList, hk, hq']
      · simp [insertMark, lookupList, hk, hq, ih q]

/-- Loop invariant for the answer grouping fold: the entry for question `q`
after folding `marks` extends whatever was there with, in order, the option
letters of the marks whose closest bubble belongs to `q`. -/
theorem marksPerQuestion_fold_lookup (bc : List (ℕ × List BubbleCenter)) :
    ∀ (marks : List Mark) (mpq : List (ℕ × List Char)) (q : ℕ),
      lookupList (marks.foldl (fun mpq m =>
          match closestBubble m bc with
          | some (q', c) => insertMark mpq q' c.option
          | none => mpq) mpq) q =
        (if (marks.filterMap (fun m =>
            match closestBubble m bc with
            | some (q', c) => if q' = q then some c.option else none
            | none => none)) = [] then lookupList mpq q
         else some ((lookupList mpq q).getD [] ++
           marks.filterMap (fun m =>
             match closestBubble m bc with
             | some (q', c) => if q' = q then some c.option else none
             | none => none))) := by
  intro marks
  induction marks with
  | nil => intro mpq q; simp
  | cons m ms ih =>
    intro mpq q
    simp only [List.foldl_cons, List.filterMap_cons]
    cases hc : closestBubble m bc with
    | none => simp only [hc]; exact ih mpq q
    | some p =>
      obtain ⟨q', c⟩ := p
      simp only [hc]
      by_cases hq : q' = q
      · subst hq
        rw [ih (insertMark mpq q' c.option) q',
          lookup_insertMark q' c.option mpq q']
        simp only [if_pos rfl]
        by_cases hrest : (ms.filterMap (fun m =>
            match closestBubble m bc with
            | some (q'', c') => if q'' = q' then some c'.option else none
            | none => none)) = []
        · simp [hrest]
        · simp [hrest, List.append_assoc]
      · simp [ih (insertMark mpq q' c.option) q, lookup_insertMark, hq]

/-- C5: for each detected mark, both resolvers pick the anchor at minimum
Euclidean distance over all anchors of the grid (stated via squared
distance, equivalent under the strictly monotone square root), with ties
broken in favour of the anchor encountered first in generation order
(every earlier anchor is strictly farther); the winning anchor's label is
grouped under its slot — the digit under its column for the index grid,
the option letter under its question number for the answer grid, in mark
order. -/
theorem nearest_anchor_resolution :
    (∀ (m : Mark) (centers : List DigitCenter), centers ≠ [] →
      ∃ i, ∃ hi : i < centers.length,
        closestDigitCenter m centers = some (centers.get ⟨i, hi⟩) ∧
        (∀ j (hj : j < centers.length),
          dist2 m.center_x m.center_y (centers.get ⟨i, hi⟩).x
              (centers.get ⟨i, hi⟩).y ≤
            dist2 m.center_x m.center_y (centers.get ⟨j, hj⟩).x
              (centers.get ⟨j, hj⟩).y) ∧
        (∀ j (hj : j < i),
          dist2 m.center_x m.center_y (centers.get ⟨i, hi⟩).x
              (centers.get ⟨i, hi⟩).y <
            dist2 m.center_x m.center_y
              (centers.get ⟨j, Nat.lt_trans hj hi⟩).x
              (centers.get ⟨j, Nat.lt_trans hj hi⟩).y)) ∧
    (∀ (m : Mark) (bc : List (ℕ × List BubbleCenter)),
      bubblePairs bc ≠ [] →
      ∃ i, ∃ hi : i < (bubblePairs bc).length,
        closestBubble m bc = some ((bubblePairs bc).get ⟨i, hi⟩) ∧
        (∀ j (hj : j < (bubblePairs bc).length),
          dist2 m.center_x m.center_y ((bubblePairs bc).get ⟨i, hi⟩).2.x
              ((bubblePairs bc).get ⟨i, hi⟩).2.y ≤
            dist2 m.center_x m.center_y ((bubblePairs bc).get ⟨j, hj⟩).2.x
              ((bubblePairs bc).get ⟨j, hj⟩).2.y) ∧
        (∀ j (hj : j < i),
          dist2 m.center_x m.center_y ((bubblePairs bc).get ⟨i, hi⟩).2.x
              ((bubblePairs bc).get ⟨i, hi⟩).2.y <
            dist2 m.center_x m.center_y
              ((bubblePairs bc).get ⟨j, Nat.lt_trans hj hi⟩).2.x
              ((bubblePairs bc).get ⟨j, Nat.lt_trans hj hi⟩).2.y)) ∧
    (∀ (marks : List Mark) (centers : List DigitCenter) (i : ℕ), i < 7 →
      (marksPerColumn marks centers).getD i [] = marks.filterMap (fun m =>
        match closestDigitCenter m centers with
        | some c => if c.col = i then some c.digit else none
        | none => none)) ∧
    (∀ (marks : List Mark) (bc : List (ℕ × List BubbleCenter)) (q : ℕ),
      lookupList (marksPerQuestion marks bc) q =
        if (marks.filterMap (fun m =>
            match closestBubble m bc with
            | some (q', c) => if q' = q then some c.option else none
            | none => none)) = [] then none
        else some (marks.filterMap (fun m =>
            match closestBubble m bc with
            | some (q', c) => if q' = q then some c.option else none
            | none => none))) := by
  refine ⟨?_, ?_, ?_, ?_⟩
  · intro m centers hne
    obtain ⟨i, hi, heq, hmin, hstrict⟩ := scanMin_none_spec
      (fun c => dist2 m.center_x m.center_y c.x c.y) centers hne
    exact ⟨i, hi, by rw [closestDigitCenter, heq]; rfl, hmin, hstrict⟩
  · intro m bc hne
    obtain ⟨i, hi, heq, hmin, hstrict⟩ := scanMin_none_spec
      (fun p : ℕ × BubbleCenter => dist2 m.center_x m.center_y p.2.x p.2.y)
      (bubblePairs bc) hne
    exact ⟨i, hi, by rw [closestBubble, heq]; rfl, hmin, hstrict⟩
  · intro marks centers i hi
    rw [marksPerColumn, marksPerColumn_fold_getD centers marks
      (List.replicate 7 []) i (by simpa using hi)]
    simp [List.getD_eq_getElem?_getD, List.getElem?_replicate, hi]
    interval_cases i <;> rfl
  · intro marks bc q
    rw [marksPerQuestion, marksPerQuestion_fold_lookup bc marks [] q]
    simp [lookupList]

/-- Concrete inputs for the C5 witness. -/
def wMark : Mark := ⟨1, 1, 1⟩

/-- Two digit-center anchors for the C5 witness. -/
def wCenters : List DigitCenter := [⟨0, 0, 0, '0'⟩, ⟨5, 5, 1, '1'⟩]

/-- One question with one bubble anchor for the C5 witness. -/
def wBubbles : List (ℕ × List BubbleCenter) := [(3, [⟨0, 0, 'A'⟩])]

/-- C5 witness: the resolution and grouping facts at concrete marks and
anchor lists, for both the index and the answer resolver. -/
theorem nearest_anchor_resolution_witness :
    (∃ i, ∃ hi : i < wCenters.length,
      closestDigitCenter wMark wCenters = some (wCenters.get ⟨i, hi⟩) ∧
      (∀ j (hj : j < wCenters.length),
        dist2 wMark.center_x wMark.center_y (wCenters.get ⟨i, hi⟩).x
            (wCenters.get ⟨i, hi⟩).y ≤
          dist2 wMark.center_x wMark.center_y (wCenters.get ⟨j, hj⟩).x
            (wCenters.get ⟨j, hj⟩).y) ∧
      (∀ j (hj : j < i),
        dist2 wMark.center_x wMark.center_y (wCenters.get ⟨i, hi⟩).x
            (wCenters.get ⟨i, hi⟩).y <
          dist2 wMark.center_x wMark.center_y
            (wCenters.get ⟨j, Nat.lt_trans hj hi⟩).x
            (wCenters.get ⟨j, Nat.lt_trans hj hi⟩).y)) ∧
    (∃ i, ∃ hi : i < (bubblePairs wBubbles).length,
      closestBubble wMark wBubbles =
        some ((bubblePairs wBubbles).get ⟨i, hi⟩) ∧
      (∀ j (hj : j < (bubblePairs wBubbles).length),
        dist2 wMark.center_x wMark.center_y
            ((bubblePairs wBubbles).get ⟨i, hi⟩).2.x
            ((bubblePairs wBubbles).get ⟨i, hi⟩).2.y ≤
          dist2 wMark.center_x wMark.center_y
            ((bubblePairs wBubbles).get ⟨j, hj⟩).2.x
            ((bubblePairs wBubbles).get ⟨j, hj⟩).2.y) ∧
      (∀ j (hj : j < i),
        dist2 wMark.center_x wMark.center_y
            ((bubblePairs wBubbles).get ⟨i, hi⟩).2.x
            ((bubblePairs wBubbles).get ⟨i, hi⟩).2.y <
          dist2 wMark.center_x wMark.center_y
            ((bubblePairs wBubbles).get ⟨j, Nat.lt_trans hj hi⟩).2.x
            ((bubblePairs wBubbles).get ⟨j, Nat.lt_trans hj hi⟩).2.y)) ∧
    (marksPerColumn [wMark] wCenters).getD 0 [] =
      ([wMark] : List Mark).filterMap (fun m =>
        match closestDigitCenter m wCenters with
        | some c => if c.col = 0 then some c.digit else none
        | none => none) ∧
    lookupList (marksPerQuestion [wMark] wBubbles) 3 =
      (if (([wMark] : List Mark).filterMap (fun m =>
          match closestBubble m wBubbles with
          | some (q', c) => if q' = 3 then some c.option else none
          | none => none)) = [] then none
       else some (([wMark] : List Mark).filterMap (fun m =>
          match closestBubble m wBubbles with
          | some (q', c) => if q' = 3 then some c.option else none
          | none => none))) :=
  ⟨nearest_anchor_resolution.1 wMark wCenters (by decide),
   nearest_anchor_resolution.2.1 wMark wBubbles (by decide),
   nearest_anchor_resolution.2.2.1 [wMark] wCenters 0 (by decide),
   nearest_anchor_resolution.2.2.2 [wMark] wBubbles 3⟩

theorem length_flatMap_range_uniform {β : Type} (f : ℕ → List β)
    (n m : ℕ) (hm : ∀ i, (f i).length = m) :
    ((List.range n).flatMap f).length = n * m := by
  induction n with
  | zero => simp
  | succ n ih =>
    rw [List.range_succ, List.flatMap_append, List.length_append, ih]
    simp [hm, Nat.succ_mul]

theorem getElem_flatMap_range_uniform {β : Type} (f : ℕ → List β)
    (n m c d : ℕ) (hm : ∀ i, (f i).length = m) (hc : c < n) (hd : d < m) :
    ∃ hk : c * m + d < ((List.range n).flatMap f).length,
      ((List.range n).flatMap f).get ⟨c * m + d, hk⟩ =
        (f c).get ⟨d, (hm c).symm ▸ hd⟩ := by
  induction n with
  | zero => omega
  | succ n ih =>
    have hlen := length_flatMap_range_uniform f n m hm
    have hk : c * m + d < ((List.range (n + 1)).flatMap f).length := by
      rw [length_flatMap_range_uniform f (n + 1) m hm]
      have h1 : (c + 1) * m ≤ (n + 1) * m := Nat.mul_le_mul_right m (by omega)
      have h2 : (c + 1) * m = c * m + m := by ring
      omega
    refine ⟨hk, ?_⟩
    rcases Nat.lt_succ_iff_lt_or_eq.mp hc with hlt | heq
    · obtain ⟨hk', hget⟩ := ih hlt
      rw [List.get_eq_getElem] at hget ⊢
      have hsplit : (List.range (n + 1)).flatMap f =
          (List.range n).flatMap f ++ f n := by
        rw [List.range_succ, List.flatMap_append, List.flatMap_singleton]
      simp only [hsplit]
      rw [List.getElem_append_left (by
        rw [hlen]
        have h1 : (c + 1) * m ≤ n * m := Nat.mul_le_mul_right m (by omega)
        have h2 : (c + 1) * m = c * m + m := by ring
        omega)]
      exact hget
    · subst heq
      have hlenc := length_flatMap_range_uniform f c m hm
      have hsplit : (List.range (c + 1)).flatMap f =
          (List.range c).flatMap f ++ f c := by
        rw [List.range_succ, List.flatMap_append, List.flatMap_singleton]
      rw [List.get_eq_getElem, List.get_eq_getElem]
      simp only [hsplit]
      rw [List.getElem_append_right (by omega)]
      congr 1
      omega

/-- C4: for every refined index ROI with positive width and height, the
index grid generator produces exactly 70 anchors — one per (column, digit)
pair with 7 columns and 10 digits, in column-major generation order — and
the anchor for column `c`, digit `d` is the rectangle origin plus
`((c + 1/2)·(roi_width/7), (d + 1/2)·(roi_height/10))`, carrying column
slot `c` (the index-number character position, left to right) and digit
label `str(d)`. -/
theorem index_grid_anchors (x_start y_start roi_width roi_height : ℚ)
    (hw : 0 < roi_width) (hh : 0 < roi_height) :
    (indxDigitCenters x_start y_start roi_width roi_height).length = 70 ∧
    ∀ c d, c < 7 → d < 10 →
      ∃ hk : c * 10 + d <
          (indxDigitCenters x_start y_start roi_width roi_height).length,
        (indxDigitCenters x_start y_start roi_width roi_height).get
            ⟨c * 10 + d, hk⟩ =
          { x := x_start + ((c : ℚ) + 1 / 2) * (roi_width / 7),
            y := y_start + ((d : ℚ) + 1 / 2) * (roi_height / 10),
            col := c, digit := digitChar d } := by
  have hm : ∀ i : ℕ, ((List.range 10).map (fun (digit : ℕ) =>
      ({ x := x_start + (i : ℚ) * (roi_width / 7) + roi_width / 7 / 2
         y := y_start + (digit : ℚ) * (roi_height / 10) +
           roi_height / 10 / 2
         col := i, digit := digitChar digit } : DigitCenter))).length = 10 :=
    fun i => by simp
  constructor
  · rw [indxDigitCenters]
    exact length_flatMap_range_uniform _ 7 10 hm
  · intro c d hc hd
    obtain ⟨hk, hget⟩ := getElem_flatMap_range_uniform _ 7 10 c d hm hc hd
    refine ⟨by rw [indxDigitCenters]; exact hk, ?_⟩
    have hstep : (indxDigitCenters x_start y_start roi_width
        roi_height).get ⟨c * 10 + d, by rw [indxDigitCenters]; exact hk⟩ =
        ((List.range 10).map (fun (digit : ℕ) =>
          ({ x := x_start + (c : ℚ) * (roi_width / 7) + roi_width / 7 / 2
             y := y_start + (digit : ℚ) * (roi_height / 10) +
               roi_height / 10 / 2
             col := c, digit := digitChar digit } : DigitCenter))).get
          ⟨d, (hm c).symm ▸ hd⟩ := hget
    rw [hstep, List.get_eq_getElem, List.getElem_map]
    simp only [List.getElem_range, DigitCenter.mk.injEq]
    exact ⟨by ring, by ring, trivial, trivial⟩

/-- C4 witness: the unit rectangle of width 7 and height 10 at the origin,
anchor (column 1, digit 2). -/
theorem index_grid_anchors_witness :
    (indxDigitCenters 0 0 7 10).length = 70 ∧
    (∃ hk : 1 * 10 + 2 < (indxDigitCenters 0 0 7 10).length,
      (indxDigitCenters 0 0 7 10).get ⟨1 * 10 + 2, hk⟩ =
        { x := 0 + ((1 : ℚ) + 1 / 2) * (7 / 7),
          y := 0 + ((2 : ℚ) + 1 / 2) * (10 / 10),
          col := 1, digit := digitChar 2 }) :=
  ⟨(index_grid_anchors 0 0 7 10 (by norm_num) (by norm_num)).1,
   (index_grid_anchors 0 0 7 10 (by norm_num) (by norm_num)).2 1 2
     (by norm_num) (by norm_num)⟩

/-- The claimed per-row height ratio `(1 − 7·0.022)/40` of the answer
grid. -/
def segRatio : ℚ := (1 - 7 * (22 / 1000)) / 40

/-- The claimed inter-group gap ratio `0.022` of the answer grid. -/
def gapRatio : ℚ := 22 / 1000

/-- Closed form of the inner row loop: row `t` (0-based) of a run of `n`
rows starting at question `q` and vertical ratio `y` is anchored at ratio
`y + t·seg + seg/2` and numbered `q + t`. -/
theorem rowsLoop_spec (options : List Char) (colS : ℤ)
    (ow x_start y_start h seg : ℚ) :
    ∀ (n q : ℕ) (y : ℚ),
      rowsLoop options colS ow x_start y_start h seg n q y =
        ((List.range n).map (fun t =>
          (q + t, rowCenters options colS ow
            (truncInt ((y + t * seg + seg / 2) * h)) x_start y_start)),
         q + n, y + n * seg) := by
  intro n
  induction n with
  | zero => intro q y; simp [rowsLoop]
  | succ n ih =>
    intro q y
    rw [rowsLoop, ih (q + 1) (y + seg)]
    simp only [Prod.mk.injEq]
    refine ⟨?_, by omega, by push_cast; ring⟩
    rw [List.range_succ_eq_map, List.map_cons, List.map_map]
    congr 1
    · simp
    · apply List.map_congr_left
      intro t _
      simp only [Function.comp_apply, Nat.succ_eq_add_one, Prod.mk.injEq]
      refine ⟨by omega, ?_⟩
      have harg : y + seg + (t : ℚ) * seg + seg / 2 =
          y + ((t + 1 : ℕ) : ℚ) * seg + seg / 2 := by push_cast; ring
      rw [harg]

/-- Closed form of the group loop over the remaining `n` groups (with
`group_idx + n = 8` as in the source, where `group_idx` counts the groups
already processed): row `t` of the `5·n` remaining rows sits at ratio
`y + t·seg + ⌊t/5⌋·gap + seg/2` — each row advances by exactly `seg` and a
gap is crossed only at each group boundary — and rows are numbered
sequentially from `q`. -/
theorem groupsLoop_spec (options : List Char) (colS : ℤ)
    (ow x_start y_start h seg gap : ℚ) :
    ∀ (n gIdx q : ℕ) (y : ℚ), gIdx + n = 8 →
      (groupsLoop options colS ow x_start y_start h seg gap gIdx n q y).1 =
        (List.range (5 * n)).map (fun t =>
          (q + t, rowCenters options colS ow
            (truncInt ((y + t * seg + ((t / 5 : ℕ) : ℚ) * gap + seg / 2) * h))
            x_start y_start)) ∧
      (groupsLoop options colS ow x_start y_start h seg gap gIdx n q y).2.1 =
        q + 5 * n := by
  intro n
  induction n with
  | zero => intro gIdx q y _; simp [groupsLoop]
  | succ n ih =>
    intro gIdx q y hg
    simp only [groupsLoop]
    rw [rowsLoop_spec options colS ow x_start y_start h seg 5 q y]
    by_cases hn : n = 0
    · subst hn
      have h7 : gIdx = 7 := by omega
      subst h7
      simp only [lt_irrefl, if_false, groupsLoop]
      refine ⟨?_, by simp [groupsLoop] <;> omega⟩
      simp only [List.append_nil]
      apply List.map_congr_left
      intro t ht
      have ht5 : t < 5 := by simpa using ht
      have hdiv : t / 5 = 0 := Nat.div_eq_of_lt ht5
      simp [hdiv]
    · have hlt : gIdx < 7 := by omega
      simp only [if_pos hlt]
      obtain ⟨ihl, ihq⟩ := ih (gIdx + 1) (q + 5) (y + (5 : ℕ) * seg + gap)
        (by omega)
      rw [ihl, ihq]
      refine ⟨?_, by omega⟩
      have hsplit : 5 * (n + 1) = 5 + 5 * n := by ring
      rw [hsplit, List.range_add, List.map_append, List.map_map]
      congr 1
      · apply List.map_congr_left
        intro t ht
        have ht5 : t < 5 := by simpa using ht
        have hdiv : t / 5 = 0 := Nat.div_eq_of_lt ht5
        simp [hdiv]
      · apply List.map_congr_left
        intro t _
        simp only [Function.comp_apply, Prod.mk.injEq]
        refine ⟨by omega, ?_⟩
        have hdiv : (5 + t) / 5 = t / 5 + 1 := by
          rw [Nat.add_comm]
          exact Nat.add_div_right t (by norm_num)
        have harg : y + ((5 : ℕ) : ℚ) * seg + gap + (t : ℚ) * seg +
            ((t / 5 : ℕ) : ℚ) * gap + seg / 2 =
            y + ((5 + t : ℕ) : ℚ) * seg + (((5 + t) / 5 : ℕ) : ℚ) * gap +
              seg / 2 := by
          rw [hdiv]; push_cast; ring
        rw [harg]

/-- Closed form of one column band: 40 rows numbered `q0 .. q0+39`, row `t`
at ratio `t·seg + ⌊t/5⌋·gap + seg/2` of the ROI height. -/
theorem processColumn_spec (options : List Char) (colS colE : ℤ)
    (x_start y_start h seg gap : ℚ) (q0 : ℕ) :
    processColumn options colS colE x_start y_start h seg gap q0 =
      ((List.range 40).map (fun t =>
        (q0 + t, rowCenters options colS
          (((colE - colS : ℤ) : ℚ) / (options.length : ℚ))
          (truncInt (((t : ℚ) * seg + ((t / 5 : ℕ) : ℚ) * gap + seg / 2) * h))
          x_start y_start)), q0 + 40) := by
  obtain ⟨hl, hq⟩ := groupsLoop_spec options colS
    (((colE - colS : ℤ) : ℚ) / (options.length : ℚ)) x_start y_start h seg
    gap 8 0 q0 0 (by omega)
  simp only [processColumn]
  rw [Prod.ext_iff]
  refine ⟨?_, ?_⟩
  · rw [hl]
    norm_num
  · rw [hq]

/-- C3: the answer grid gives every question row a height ratio of
`(1 − 7·0.022)/40` of the refined ROI height (`segRatio`) — row `t` of a
column is centered at ratio `t·segRatio + ⌊t/5⌋·gapRatio + segRatio/2`, so
consecutive rows differ by exactly `segRatio` and the `0.022` gap is added
only at each of the 7 boundaries between the 8 groups of 5 rows — and
question numbers run sequentially: column `ci` (left to right), row `t`
(top to bottom through the groups) is question `40·ci + t + 1`. -/
theorem answer_grid_layout (options : List Char)
    (x_start y_start roi_width roi_height : ℚ) :
    calcBubbleCenters options x_start y_start roi_width roi_height =
      (List.range 5).flatMap (fun ci =>
        (List.range 40).map (fun t =>
          (40 * ci + t + 1,
           rowCenters options
             (truncInt (roi_width * (columnDefinitionsRatios.getD ci (0, 0)).1))
             (((truncInt (roi_width *
                  (columnDefinitionsRatios.getD ci (0, 0)).2) -
                truncInt (roi_width *
                  (columnDefinitionsRatios.getD ci (0, 0)).1) : ℤ) : ℚ) /
               (options.length : ℚ))
             (truncInt (((t : ℚ) * segRatio + ((t / 5 : ℕ) : ℚ) * gapRatio +
               segRatio / 2) * roi_height))
             x_start y_start))) := by
  rw [calcBubbleCenters]
  have h5 : List.range 5 = [0, 1, 2, 3, 4] := by rfl
  rw [h5]
  simp only [columnDefinitionsRatios, List.map_cons, List.map_nil,
    columnsLoop, processColumn_spec, List.flatMap_cons, List.flatMap_nil,
    List.append_nil, List.getD_cons_zero, List.getD_cons_succ, segRatio,
    gapRatio]
  congr 1

end Mcq
